import Mathlib

/-!
# Lifecycle model of `pimpl.cpp`

A shallow embedding of the five pointer-to-implementation example classes of
`pimpl.cpp` (`widget`, `MyClass`, `foo`, `bar`, `car`) and of its `main`.

* Standard output is the list of lines written so far: every
  `std::cout<<"X\n"` of the source appends the line `X`.
* The free store is a list of cells; the index of a cell is the identity of the
  object placed in it. A cell is never removed: `delete` counts in the cell how
  often the object was released, so that a double release or a leak stays
  visible in the final state.
* A `std::unique_ptr` or `std::shared_ptr` member is an `Option Nat`: `none`
  is the null pointer, `some a` points at cell `a`. The reference count of a
  `std::shared_ptr` control block is the `use_count` field of the cell.
* `car` objects live in a store of slots (`World.cars`), because the copy and
  move operations of `car` take a second `car` by reference and may alias.
* Dereferencing a null or released pointer is undefined behaviour in C++; the
  embedding reports it as a `Fault`.
-/

namespace Pimpl

/-- The class `widget`: its only member is `std::unique_ptr<impl> pimpl`. -/
structure widget where
  pimpl : Option Nat
  deriving DecidableEq, Repr

/-- The class `MyClass`: its only member is `std::unique_ptr<MyClassImp> pimpl_`. -/
structure MyClass where
  pimpl_ : Option Nat
  deriving DecidableEq, Repr

/-- The class `foo`: its only member is `std::unique_ptr<impl> pimpl`. -/
structure foo where
  pimpl : Option Nat
  deriving DecidableEq, Repr

/-- The class `bar`: its only member is `std::unique_ptr<impl,impl_deleter> pimpl`. -/
structure bar where
  pimpl : Option Nat
  deriving DecidableEq, Repr

/-- The class `car`: its only member is `std::shared_ptr<under_the_hood> pImpl`. -/
structure car where
  pImpl : Option Nat
  deriving DecidableEq, Repr

/-- The objects the program places on the free store. `widget::impl` is an empty
class, `MyClassImp` has the member `int private_var_` which its constructor
leaves uninitialised (`none`), `foo::impl` and `bar::impl` have
`int internal_data`. The members of `car::under_the_hood` are left open in the
source (`/* Implement car stuff here */`), so they are kept abstract as a value
of type `σ`; the class as written is the case `σ = Unit`. A `widget` itself is
placed on the free store by `std::make_shared<widget>()` and
`std::make_unique<widget>()`. -/
inductive Obj (σ : Type) where
  | widget_impl : Obj σ
  | widget (self : widget) : Obj σ
  | MyClassImp (private_var_ : Option Int) : Obj σ
  | foo_impl (internal_data : Int) : Obj σ
  | bar_impl (internal_data : Int) : Obj σ
  | under_the_hood (members : σ) : Obj σ
  deriving DecidableEq, Repr

/-- One cell of the free store: the object, the number of `std::shared_ptr`
owners (`0` for an object held by a `std::unique_ptr`), and how many times the
object has been released. -/
structure Cell (σ : Type) where
  obj : Obj σ
  use_count : Nat
  deleted : Nat
  deriving DecidableEq, Repr

/-- Undefined behaviour the embedding detects: a null pointer dereferenced, a
pointer to a released object dereferenced, a pointer that does not point at an
object of its pointee type, and a `car` used outside its lifetime. -/
inductive Fault where
  | null_deref
  | dangling
  | wrong_type
  | no_such_car
  deriving DecidableEq, Repr

/-- The state of a run: the lines written to standard output, the free store,
the arguments `bar::impl_deleter::operator()` has been called with, and the
`car` objects (a slot is `none` once its `car` has been destroyed). -/
structure World (σ : Type) where
  out : List String
  heap : List (Cell σ)
  deleter_calls : List Nat
  cars : List (Option car)
  deriving DecidableEq, Repr

variable {σ : Type}

/-- The state before anything has run. -/
def World.empty : World σ := ⟨[], [], [], []⟩

/-- The statement `std::cout<<"line\n"`. -/
def World.print (w : World σ) (line : String) : World σ :=
  { w with out := w.out ++ [line] }

/-- Place a new object on the free store; returns its address. -/
def World.alloc (w : World σ) (o : Obj σ) (uses : Nat) : World σ × Nat :=
  ({ w with heap := w.heap ++ [⟨o, uses, 0⟩] }, w.heap.length)

/-- Give the storage of the object at `p` back: one more release is counted. -/
def World.free (w : World σ) (p : Nat) : World σ :=
  match w.heap[p]? with
  | some c => { w with heap := w.heap.set p { c with deleted := c.deleted + 1 } }
  | none => w

/-- The expression `*p` or `p->`: the pointer must be non-null and the object
it points at must not have been released. -/
def World.deref (w : World σ) (p : Option Nat) : Except Fault (Nat × Cell σ) :=
  match p with
  | none => .error .null_deref
  | some a =>
    match w.heap[a]? with
    | some c => if c.deleted = 0 then .ok (a, c) else .error .dangling
    | none => .error .dangling

/-- An assignment to the members of the object in cell `a`, through a pointer
that has been dereferenced to the cell `c`. -/
def World.write (w : World σ) (a : Nat) (c : Cell σ) (o : Obj σ) : World σ :=
  { w with heap := w.heap.set a { c with obj := o } }

/-- The destructor of a `std::unique_ptr` with the default deleter: a non-null
pointer is passed to `delete`, here `del`, the `delete` of the pointee type. -/
def unique_ptr_dtor (del : World σ → Nat → World σ) (w : World σ) (p : Option Nat) :
    World σ :=
  match p with
  | some a => del w a
  | none => w

/-- Copy construction of a `std::shared_ptr`: the new owner is counted. -/
def shared_ptr_copy (w : World σ) (p : Option Nat) : World σ :=
  match p with
  | some a =>
    match w.heap[a]? with
    | some c => { w with heap := w.heap.set a { c with use_count := c.use_count + 1 } }
    | none => w
  | none => w

/-- The destructor of a `std::shared_ptr`: the owner is uncounted, and the last
owner passes the object to `delete`, here `del`. -/
def shared_ptr_dtor (del : World σ → Nat → World σ) (w : World σ) (p : Option Nat) :
    World σ :=
  match p with
  | some a =>
    match w.heap[a]? with
    | some c =>
      let w1 : World σ :=
        { w with heap := w.heap.set a { c with use_count := c.use_count - 1 } }
      if c.use_count - 1 = 0 then del w1 a else w1
    | none => w
  | none => w

/-! ## widget -/

/-- The statement `delete p` for `p : widget::impl*`; the destructor is implicit. -/
def widget.impl.delete (w : World σ) (p : Nat) : World σ :=
  w.free p

/-- The constructor `widget::widget() : pimpl{ new impl{} } { std::cout<<"widget\n"; }`. -/
def widget.ctor (w : World σ) : World σ × widget :=
  let r := w.alloc Obj.widget_impl 0
  (r.1.print "widget", ⟨some r.2⟩)

/-- The destructor `widget::~widget() { std::cout<<"~widget\n"; }`, followed by
the destruction of the member `pimpl`. -/
def widget.dtor (w : World σ) (self : widget) : World σ :=
  unique_ptr_dtor widget.impl.delete (w.print "~widget") self.pimpl

/-- The statement `delete p` for `p : widget*`: destructor, then storage. -/
def widget.delete (w : World σ) (p : Nat) : World σ :=
  match w.heap[p]? with
  | some ⟨Obj.widget self, _, _⟩ => (widget.dtor w self).free p
  | _ => w.free p

/-- The initialiser `std::make_shared<widget>()` of the global `pws`. -/
def make_shared_widget (w : World σ) : World σ × Option Nat :=
  let r := widget.ctor w
  let s := r.1.alloc (Obj.widget r.2) 1
  (s.1, some s.2)

/-- The initialiser `std::make_unique<widget>()` of the global `pwu`. -/
def make_unique_widget (w : World σ) : World σ × Option Nat :=
  let r := widget.ctor w
  let s := r.1.alloc (Obj.widget r.2) 0
  (s.1, some s.2)

/-! ## MyClass -/

/-- The constructor `MyClassImp::MyClassImp() { std::cout<<"MyClassImp\n"; }`;
`private_var_` is not initialised. -/
def MyClassImp.ctor (w : World σ) : World σ × Obj σ :=
  (w.print "MyClassImp", Obj.MyClassImp none)

/-- The destructor `MyClassImp::~MyClassImp() { std::cout<<"~MyClassImp\n"; }`. -/
def MyClassImp.dtor (w : World σ) : World σ :=
  w.print "~MyClassImp"

/-- The expression `new MyClassImp()`. -/
def MyClassImp.new (w : World σ) : World σ × Nat :=
  let r := MyClassImp.ctor w
  r.1.alloc r.2 0

/-- The statement `delete p` for `p : MyClassImp*`. -/
def MyClassImp.delete (w : World σ) (p : Nat) : World σ :=
  (MyClassImp.dtor w).free p

/-- The member `void Private_Method() {}`, called as `pimpl_->Private_Method()`. -/
def MyClassImp.Private_Method (w : World σ) (p : Option Nat) : Except Fault (World σ) :=
  match w.deref p with
  | .error e => .error e
  | .ok (_, c) =>
    match c.obj with
    | Obj.MyClassImp _ => .ok w
    | _ => .error .wrong_type

/-- The constructor
`MyClass::MyClass() : pimpl_( new MyClassImp() ) { std::cout<<"MyClass\n"; }`:
the member initialiser runs before the body. -/
def MyClass.ctor (w : World σ) : World σ × MyClass :=
  let r := MyClassImp.new w
  (r.1.print "MyClass", ⟨some r.2⟩)

/-- The destructor `MyClass::~MyClass() { std::cout<<"~MyClass\n"; }`, followed
by the destruction of the member `pimpl_`. -/
def MyClass.dtor (w : World σ) (self : MyClass) : World σ :=
  unique_ptr_dtor MyClassImp.delete (w.print "~MyClass") self.pimpl_

/-- The member `MyClass::Public_Method`: prints its line, calls
`pimpl_->Private_Method()`, then assigns `pimpl_->private_var_ = 3`. The object
itself is returned next to the state, as the method is not `const`. -/
def MyClass.Public_Method (w : World σ) (self : MyClass) :
    Except Fault (World σ × MyClass) :=
  let w1 := w.print "MyClass::Public_Method()"
  match MyClassImp.Private_Method w1 self.pimpl_ with
  | .error e => .error e
  | .ok w2 =>
    match w2.deref self.pimpl_ with
    | .error e => .error e
    | .ok (a, c) =>
      match c.obj with
      | Obj.MyClassImp _ => .ok (w2.write a c (Obj.MyClassImp (some 3)), self)
      | _ => .error .wrong_type

/-! ## foo -/

/-- The member `foo::impl::do_internal_work`, called as `pimpl->do_internal_work()`:
prints its line and assigns `internal_data = 5`. -/
def foo.impl.do_internal_work (w : World σ) (p : Option Nat) : Except Fault (World σ) :=
  let w1 := w.print "foo::do_internal_work()"
  match w1.deref p with
  | .error e => .error e
  | .ok (a, c) =>
    match c.obj with
    | Obj.foo_impl _ => .ok (w1.write a c (Obj.foo_impl 5))
    | _ => .error .wrong_type

/-- The statement `delete p` for `p : foo::impl*`; the destructor is implicit. -/
def foo.impl.delete (w : World σ) (p : Nat) : World σ :=
  w.free p

/-- The constructor
`foo::foo() : pimpl{std::make_unique<impl>()} { std::cout<<"foo\n"; pimpl->do_internal_work(); }`;
`internal_data` starts at `0`. -/
def foo.ctor (w : World σ) : Except Fault (World σ × foo) :=
  let r := w.alloc (Obj.foo_impl 0) 0
  match foo.impl.do_internal_work (r.1.print "foo") (some r.2) with
  | .error e => .error e
  | .ok w2 => .ok (w2, ⟨some r.2⟩)

/-- The destructor `foo::~foo() { std::cout<<"~foo\n"; }`, followed by the
destruction of the member `pimpl`. -/
def foo.dtor (w : World σ) (self : foo) : World σ :=
  unique_ptr_dtor foo.impl.delete (w.print "~foo") self.pimpl

/-- The defaulted move constructor `foo::foo(foo&&) = default`: the new object
takes the pointer and the source is left null. Returns the new object and the
source. -/
def foo.move_ctor (w : World σ) (src : foo) : World σ × foo × foo :=
  (w, ⟨src.pimpl⟩, ⟨none⟩)

/-- The defaulted move assignment `foo& foo::operator=(foo&&) = default` between
two different objects: the destination releases what it held and takes the
pointer of the source, which is left null. Returns the destination and the
source. -/
def foo.move_assign (w : World σ) (self src : foo) : World σ × foo × foo :=
  (unique_ptr_dtor foo.impl.delete w self.pimpl, ⟨src.pimpl⟩, ⟨none⟩)

/-! ## bar -/

/-- The member `bar::impl::do_internal_work`: prints its line and assigns
`internal_data = 5`. -/
def bar.impl.do_internal_work (w : World σ) (p : Option Nat) : Except Fault (World σ) :=
  let w1 := w.print "bar::do_internal_work()"
  match w1.deref p with
  | .error e => .error e
  | .ok (a, c) =>
    match c.obj with
    | Obj.bar_impl _ => .ok (w1.write a c (Obj.bar_impl 5))
    | _ => .error .wrong_type

/-- The function `bar::impl_deleter::operator()( impl * ptr ) const { delete ptr; }`;
the call is recorded in `deleter_calls`. -/
def bar.impl_deleter (w : World σ) (ptr : Nat) : World σ :=
  World.free { w with deleter_calls := w.deleter_calls ++ [ptr] } ptr

/-- The constructor
`bar::bar() : pimpl{new impl} { std::cout<<"bar\n"; pimpl->do_internal_work(); }`. -/
def bar.ctor (w : World σ) : Except Fault (World σ × bar) :=
  let r := w.alloc (Obj.bar_impl 0) 0
  match bar.impl.do_internal_work (r.1.print "bar") (some r.2) with
  | .error e => .error e
  | .ok w2 => .ok (w2, ⟨some r.2⟩)

/-- The destructor `bar::~bar() { std::cout<<"~bar\n"; }`, followed by the
destruction of the member `pimpl`, which passes a non-null pointer to
`impl_deleter`. -/
def bar.dtor (w : World σ) (self : bar) : World σ :=
  unique_ptr_dtor bar.impl_deleter (w.print "~bar") self.pimpl

/-! ## car -/

/-- The statement `delete p` for `p : car::under_the_hood*`; the destructor is
implicit. -/
def car.under_the_hood.delete (w : World σ) (p : Nat) : World σ :=
  w.free p

/-- The `car` in slot `i`, if it has been constructed and not yet destroyed. -/
def World.car_at (w : World σ) (i : Nat) : Except Fault car :=
  match w.cars[i]? with
  | some (some c) => .ok c
  | _ => .error .no_such_car

/-- The expression `std::make_shared<under_the_hood>(args)`. -/
def car.make_shared (w : World σ) (members : σ) : World σ × Option Nat :=
  let r := w.alloc (Obj.under_the_hood members) 1
  (r.1, some r.2)

/-- A new `car` object with the given member; returns its slot. -/
def World.new_car (w : World σ) (c : car) : World σ × Nat :=
  ({ w with cars := w.cars ++ [some c] }, w.cars.length)

/-- The constructor
`car::car() : pImpl(std::make_shared<under_the_hood>()) { std::cout<<"car\n"; }`. -/
def car.ctor [Inhabited σ] (w : World σ) : World σ × Nat :=
  let r := car.make_shared w default
  (r.1.print "car").new_car ⟨r.2⟩

/-- The destructor `car::~car() { std::cout<<"~car\n"; }` of the `car` in slot
`i`, followed by the destruction of the member `pImpl`. -/
def car.dtor (w : World σ) (i : Nat) : Except Fault (World σ) :=
  match w.car_at i with
  | .error e => .error e
  | .ok self =>
    let w1 := shared_ptr_dtor car.under_the_hood.delete (w.print "~car") self.pImpl
    .ok { w1 with cars := w1.cars.set i none }

/-- The copy of `*p` made by the implicit copy constructor of `under_the_hood`. -/
def car.under_the_hood.copy (w : World σ) (p : Option Nat) : Except Fault σ :=
  match w.deref p with
  | .error e => .error e
  | .ok (_, c) =>
    match c.obj with
    | Obj.under_the_hood s => .ok s
    | _ => .error .wrong_type

/-- The copy constructor
`car::car(const car &c) : pImpl(std::make_shared<under_the_hood>(*c.pImpl)) {}`,
with the `car` in slot `c` as argument; returns the slot of the new `car`. -/
def car.copy_ctor (w : World σ) (c : Nat) : Except Fault (World σ × Nat) :=
  match w.car_at c with
  | .error e => .error e
  | .ok src =>
    match car.under_the_hood.copy w src.pImpl with
    | .error e => .error e
    | .ok s =>
      let r := car.make_shared w s
      .ok (r.1.new_car ⟨r.2⟩)

/-- The copy assignment
`pImpl = std::make_shared<under_the_hood>(*rhs.pImpl); return *this;` of the
`car` in slot `self` from the `car` in slot `rhs`: the new object is made
first, then the old pointer of `self` is released. -/
def car.copy_assign (w : World σ) (self rhs : Nat) : Except Fault (World σ) :=
  match w.car_at self, w.car_at rhs with
  | .error e, _ => .error e
  | _, .error e => .error e
  | .ok dst, .ok src =>
    match car.under_the_hood.copy w src.pImpl with
    | .error e => .error e
    | .ok s =>
      let r := car.make_shared w s
      let w2 := shared_ptr_dtor car.under_the_hood.delete r.1 dst.pImpl
      .ok { w2 with cars := w2.cars.set self (some ⟨r.2⟩) }

/-- The declared move constructor `car::car(const car &&c) : pImpl(c.pImpl) { }`:
the argument is `const`, so its `pImpl` is copied; returns the slot of the new
`car`. -/
def car.move_ctor (w : World σ) (c : Nat) : Except Fault (World σ × Nat) :=
  match w.car_at c with
  | .error e => .error e
  | .ok src => .ok ((shared_ptr_copy w src.pImpl).new_car ⟨src.pImpl⟩)

/-- The declared move assignment `pImpl = rhs.pImpl; return *this;`: a copy
assignment of `std::shared_ptr`, which counts the new owner and then releases
the old pointer of `self`. -/
def car.move_assign (w : World σ) (self rhs : Nat) : Except Fault (World σ) :=
  match w.car_at self, w.car_at rhs with
  | .error e, _ => .error e
  | _, .error e => .error e
  | .ok dst, .ok src =>
    let w1 := shared_ptr_copy w src.pImpl
    let w2 := shared_ptr_dtor car.under_the_hood.delete w1 dst.pImpl
    .ok { w2 with cars := w2.cars.set self (some ⟨src.pImpl⟩) }

/-- One operation on the `car` objects of a program; the arguments are slots. -/
inductive CarOp where
  | ctor
  | copy_ctor (c : Nat)
  | copy_assign (self rhs : Nat)
  | move_ctor (c : Nat)
  | move_assign (self rhs : Nat)
  | dtor (c : Nat)
  deriving DecidableEq, Repr

/-- Run one operation on the `car` objects. -/
def car.step [Inhabited σ] (w : World σ) (op : CarOp) : Except Fault (World σ) :=
  match op with
  | .ctor => .ok (car.ctor w).1
  | .copy_ctor c => (car.copy_ctor w c).map Prod.fst
  | .copy_assign self rhs => car.copy_assign w self rhs
  | .move_ctor c => (car.move_ctor w c).map Prod.fst
  | .move_assign self rhs => car.move_assign w self rhs
  | .dtor c => car.dtor w c

/-- Run a sequence of operations on the `car` objects, stopping at the first
fault. -/
def car.run [Inhabited σ] (w : World σ) (ops : List CarOp) : Except Fault (World σ) :=
  match ops with
  | [] => .ok w
  | op :: rest =>
    match car.step w op with
    | .error e => .error e
    | .ok w1 => car.run w1 rest

/-- Whether an operation places a new `under_the_hood` on the free store. -/
def CarOp.creates (op : CarOp) : Bool :=
  match op with
  | .ctor => true
  | .copy_ctor _ => true
  | .copy_assign _ _ => true
  | _ => false

/-- Whether slot `i` holds a `car` that has been constructed and not destroyed. -/
def World.live (w : World σ) (i : Nat) : Bool :=
  match w.cars[i]? with
  | some (some _) => true
  | _ => false

/-- Whether every slot an operation names holds a live `car`; a C++ program can
only name such objects. -/
def CarOp.valid (w : World σ) (op : CarOp) : Bool :=
  match op with
  | .ctor => true
  | .copy_ctor c => w.live c
  | .copy_assign self rhs => w.live self && w.live rhs
  | .move_ctor c => w.live c
  | .move_assign self rhs => w.live self && w.live rhs
  | .dtor c => w.live c

/-- The number of live `car` objects whose `pImpl` points at cell `a`. -/
def World.owners (w : World σ) (a : Nat) : Nat :=
  w.cars.count (some ⟨some a⟩)

/-- A cell is consistent with `n` owners: it holds an `under_the_hood`, its
owner count is `n`, and it has been released once if `n` is zero and never
otherwise. -/
def Cell.ok (cell : Cell σ) (n : Nat) : Prop :=
  (∃ s, cell.obj = Obj.under_the_hood s) ∧
  cell.use_count = n ∧
  cell.deleted = if n = 0 then 1 else 0

/-- The invariant of the `car` operations: the `pImpl` of every live `car`
points into the free store, and every cell is consistent with the number of
live `car` objects pointing at it. -/
def car_inv (w : World σ) : Prop :=
  (∀ (i : Nat) (c : car), w.cars[i]? = some (some c) →
    ∃ a, c.pImpl = some a ∧ a < w.heap.length) ∧
  (∀ (a : Nat) (cell : Cell σ), w.heap[a]? = some cell → cell.ok (w.owners a))

/-! ## main and the whole program -/

/-- The function `main`: `MyClass mc; mc.Public_Method(); foo fighter; bar stool;
car wreck;`, then the four objects go out of scope in reverse order. -/
def main [Inhabited σ] (w : World σ) : Except Fault (World σ) :=
  let r1 := MyClass.ctor w
  match MyClass.Public_Method r1.1 r1.2 with
  | .error e => .error e
  | .ok (w2, mc) =>
    match foo.ctor w2 with
    | .error e => .error e
    | .ok (w3, fighter) =>
      match bar.ctor w3 with
      | .error e => .error e
      | .ok (w4, stool) =>
        let r5 := car.ctor w4
        match car.dtor r5.1 r5.2 with
        | .error e => .error e
        | .ok w6 => .ok (MyClass.dtor (foo.dtor (bar.dtor w6 stool) fighter) mc)

/-- One run of the program: the globals `pws` and `pwu` are initialised in the
order of their definitions, `main` runs, and the globals are destroyed in
reverse order. -/
def program : Except Fault (World Unit) :=
  let g1 := make_shared_widget World.empty
  let g2 := make_unique_widget g1.1
  match main g2.1 with
  | .error e => .error e
  | .ok w => .ok (shared_ptr_dtor widget.delete (unique_ptr_dtor widget.delete w g2.2) g1.2)

/-! ## Basic facts about the free store -/

theorem set_concat_length {α : Type} (l : List α) (x y : α) :
    (l ++ [x]).set l.length y = l ++ [y] := by
  rw [List.set_append_right _ _ (Nat.le_refl _)]
  simp

theorem getElem?_append_add {α : Type} (l xs : List α) (k : Nat) :
    (l ++ xs)[l.length + k]? = xs[k]? := by
  rw [List.getElem?_append_right (Nat.le_add_right _ _), Nat.add_sub_cancel_left]

theorem set_append_add {α : Type} (l xs : List α) (k : Nat) (y : α) :
    (l ++ xs).set (l.length + k) y = l ++ xs.set k y := by
  rw [List.set_append_right _ _ (Nat.le_add_right _ _), Nat.add_sub_cancel_left]

theorem deref_live (w : World σ) (a : Nat) (c : Cell σ) (h : w.heap[a]? = some c)
    (hd : c.deleted = 0) : w.deref (some a) = .ok (a, c) := by
  simp [World.deref, h, hd]

theorem free_eq (w : World σ) (a : Nat) (c : Cell σ) (h : w.heap[a]? = some c) :
    w.free a = { w with heap := w.heap.set a { c with deleted := c.deleted + 1 } } := by
  simp [World.free, h]

theorem widget_ctor_eq (w : World σ) :
    widget.ctor w =
      ({ w with out := w.out ++ ["widget"], heap := w.heap ++ [⟨Obj.widget_impl, 0, 0⟩] },
        ⟨some w.heap.length⟩) := rfl

theorem MyClass_ctor_eq (w : World σ) :
    MyClass.ctor w =
      ({ w with out := w.out ++ ["MyClassImp"] ++ ["MyClass"],
                heap := w.heap ++ [⟨Obj.MyClassImp none, 0, 0⟩] },
        ⟨some w.heap.length⟩) := rfl

theorem foo_ctor_eq (w : World σ) :
    foo.ctor w =
      .ok ({ w with out := w.out ++ ["foo"] ++ ["foo::do_internal_work()"],
                    heap := w.heap ++ [⟨Obj.foo_impl 5, 0, 0⟩] },
        ⟨some w.heap.length⟩) := by
  simp [foo.ctor, foo.impl.do_internal_work, World.alloc, World.print, World.deref,
    World.write, set_concat_length]

theorem bar_ctor_eq (w : World σ) :
    bar.ctor w =
      .ok ({ w with out := w.out ++ ["bar"] ++ ["bar::do_internal_work()"],
                    heap := w.heap ++ [⟨Obj.bar_impl 5, 0, 0⟩] },
        ⟨some w.heap.length⟩) := by
  simp [bar.ctor, bar.impl.do_internal_work, World.alloc, World.print, World.deref,
    World.write, set_concat_length]

theorem widget_dtor_eq (w : World σ) (p : Nat) (c : Cell σ) (h : w.heap[p]? = some c) :
    widget.dtor w ⟨some p⟩ =
      { w with out := w.out ++ ["~widget"],
               heap := w.heap.set p { c with deleted := c.deleted + 1 } } := by
  simp [widget.dtor, unique_ptr_dtor, widget.impl.delete, World.free, World.print, h]

theorem MyClass_dtor_eq (w : World σ) (p : Nat) (c : Cell σ) (h : w.heap[p]? = some c) :
    MyClass.dtor w ⟨some p⟩ =
      { w with out := w.out ++ ["~MyClass"] ++ ["~MyClassImp"],
               heap := w.heap.set p { c with deleted := c.deleted + 1 } } := by
  simp [MyClass.dtor, unique_ptr_dtor, MyClassImp.delete, MyClassImp.dtor, World.free,
    World.print, h]

theorem foo_dtor_eq (w : World σ) (p : Nat) (c : Cell σ) (h : w.heap[p]? = some c) :
    foo.dtor w ⟨some p⟩ =
      { w with out := w.out ++ ["~foo"],
               heap := w.heap.set p { c with deleted := c.deleted + 1 } } := by
  simp [foo.dtor, unique_ptr_dtor, foo.impl.delete, World.free, World.print, h]

theorem bar_dtor_eq (w : World σ) (p : Nat) (c : Cell σ) (h : w.heap[p]? = some c) :
    bar.dtor w ⟨some p⟩ =
      { w with out := w.out ++ ["~bar"],
               heap := w.heap.set p { c with deleted := c.deleted + 1 },
               deleter_calls := w.deleter_calls ++ [p] } := by
  simp [bar.dtor, unique_ptr_dtor, bar.impl_deleter, World.free, World.print, h]

theorem Public_Method_eq (w : World σ) (p : Nat) (c : Cell σ) (v : Option Int)
    (h : w.heap[p]? = some c) (hd : c.deleted = 0) (ho : c.obj = Obj.MyClassImp v) :
    MyClass.Public_Method w ⟨some p⟩ =
      .ok ({ w with out := w.out ++ ["MyClass::Public_Method()"],
                    heap := w.heap.set p { c with obj := Obj.MyClassImp (some 3) } },
        ⟨some p⟩) := by
  simp [MyClass.Public_Method, MyClassImp.Private_Method, World.deref, World.print,
    World.write, h, hd, ho]

theorem shared_ptr_dtor_eq (w : World σ) (a : Nat) (c : Cell σ) (h : w.heap[a]? = some c) :
    shared_ptr_dtor car.under_the_hood.delete w (some a) =
      { w with heap := w.heap.set a ⟨c.obj, c.use_count - 1,
          if c.use_count - 1 = 0 then c.deleted + 1 else c.deleted⟩ } := by
  have hlt : a < w.heap.length := by
    rcases Nat.lt_or_ge a w.heap.length with h1 | h1
    · exact h1
    · rw [List.getElem?_eq_none h1] at h
      cases h
  simp only [shared_ptr_dtor, h, car.under_the_hood.delete]
  split
  · simp [World.free, List.getElem?_set_self hlt, List.set_set]
  · rfl

theorem shared_ptr_copy_eq (w : World σ) (a : Nat) (c : Cell σ) (h : w.heap[a]? = some c) :
    shared_ptr_copy w (some a) =
      { w with heap := w.heap.set a { c with use_count := c.use_count + 1 } } := by
  simp [shared_ptr_copy, h]

theorem car_at_eq (w : World σ) (i : Nat) (c : car) (h : w.cars[i]? = some (some c)) :
    w.car_at i = .ok c := by
  simp [World.car_at, h]

theorem car_dtor_eq (w : World σ) (i a : Nat) (c : Cell σ)
    (hc : w.cars[i]? = some (some ⟨some a⟩)) (h : w.heap[a]? = some c) :
    car.dtor w i =
      .ok { w with out := w.out ++ ["~car"],
                   heap := w.heap.set a ⟨c.obj, c.use_count - 1,
                     if c.use_count - 1 = 0 then c.deleted + 1 else c.deleted⟩,
                   cars := w.cars.set i none } := by
  have h1 : (w.print "~car").heap[a]? = some c := h
  simp only [car.dtor, car_at_eq w i _ hc, shared_ptr_dtor_eq _ a c h1]
  rfl

theorem car_ctor_eq [Inhabited σ] (w : World σ) :
    car.ctor w =
      ({ w with out := w.out ++ ["car"],
                heap := w.heap ++ [⟨Obj.under_the_hood default, 1, 0⟩],
                cars := w.cars ++ [some ⟨some w.heap.length⟩] },
        w.cars.length) := rfl

theorem main_eq [Inhabited σ] (w : World σ) :
    main w =
      .ok { out := w.out ++ ["MyClassImp", "MyClass", "MyClass::Public_Method()", "foo",
                    "foo::do_internal_work()", "bar", "bar::do_internal_work()", "car",
                    "~car", "~bar", "~foo", "~MyClass", "~MyClassImp"],
            heap := w.heap ++ [⟨Obj.MyClassImp (some 3), 0, 1⟩, ⟨Obj.foo_impl 5, 0, 1⟩,
                    ⟨Obj.bar_impl 5, 0, 1⟩, ⟨Obj.under_the_hood default, 0, 1⟩],
            deleter_calls := w.deleter_calls ++ [w.heap.length + 2],
            cars := w.cars ++ [none] } := by
  simp only [main, MyClass_ctor_eq]
  rw [Public_Method_eq _ w.heap.length ⟨Obj.MyClassImp none, 0, 0⟩ none (by simp) rfl rfl]
  simp only [foo_ctor_eq, bar_ctor_eq, car_ctor_eq, set_concat_length, List.append_assoc,
    List.singleton_append, List.cons_append, List.nil_append, List.length_append,
    List.length_cons, List.length_nil, Nat.add_assoc, Nat.reduceAdd]
  rw [car_dtor_eq _ _ (w.heap.length + 3) ⟨Obj.under_the_hood default, 1, 0⟩
    (by simp) (by rw [getElem?_append_add]; rfl)]
  simp only [set_append_add, set_concat_length, List.set_cons_succ, List.set_cons_zero]
  rw [bar_dtor_eq _ (w.heap.length + 2) ⟨Obj.bar_impl 5, 0, 0⟩
    (by rw [getElem?_append_add]; rfl)]
  simp only [set_append_add, List.set_cons_succ, List.set_cons_zero]
  rw [foo_dtor_eq _ (w.heap.length + 1) ⟨Obj.foo_impl 5, 0, 0⟩
    (by rw [getElem?_append_add]; rfl)]
  simp only [set_append_add, List.set_cons_succ, List.set_cons_zero]
  rw [MyClass_dtor_eq _ w.heap.length ⟨Obj.MyClassImp (some 3), 0, 0⟩
    (getElem?_append_add w.heap _ 0)]
  have h0 := set_append_add w.heap
    [(⟨Obj.MyClassImp (some 3), 0, 0⟩ : Cell σ), ⟨Obj.foo_impl 5, 0, 0 + 1⟩,
      ⟨Obj.bar_impl 5, 0, 0 + 1⟩, ⟨Obj.under_the_hood default, 1 - 1, 0 + 1⟩] 0
  simp at h0 ⊢

/-! ## The operations of `car` on live objects -/

theorem lt_of_getElem?_eq_some {α : Type} (l : List α) (i : Nat) (x : α)
    (h : l[i]? = some x) : i < l.length := by
  rcases Nat.lt_or_ge i l.length with h1 | h1
  · exact h1
  · rw [List.getElem?_eq_none h1] at h
    cases h

theorem count_set_ptr (l : List (Option car)) (i : Nat) (old v u : Option car)
    (h : l[i]? = some old) :
    (l.set i v).count u =
      l.count u - (if old = u then 1 else 0) + (if v = u then 1 else 0) := by
  have hlt : i < l.length := lt_of_getElem?_eq_some l i old h
  rw [List.count_set _ _ _ _ hlt]
  rw [List.getElem?_eq_getElem hlt] at h
  cases h
  simp

theorem count_concat_ptr (l : List (Option car)) (v u : Option car) :
    (l ++ [v]).count u = l.count u + (if v = u then 1 else 0) := by
  simp [List.count_singleton]

theorem count_pos_of_getElem? (l : List (Option car)) (i : Nat) (u : Option car)
    (h : l[i]? = some u) : 1 ≤ l.count u :=
  List.count_pos_iff.mpr (List.getElem?_mem h)

theorem count_zero_of (l : List (Option car)) (u : Option car)
    (h : ∀ i : Nat, l[i]? ≠ some u) : l.count u = 0 := by
  rw [List.count_eq_zero]
  intro hm
  obtain ⟨i, hi⟩ := List.getElem?_of_mem hm
  exact h i hi

theorem copy_eq (w : World σ) (a : Nat) (cell : Cell σ) (s : σ)
    (h : w.heap[a]? = some cell) (hd : cell.deleted = 0)
    (ho : cell.obj = Obj.under_the_hood s) :
    car.under_the_hood.copy w (some a) = .ok s := by
  simp [car.under_the_hood.copy, deref_live w a cell h hd, ho]

theorem copy_ctor_eq (w : World σ) (c a : Nat) (cell : Cell σ) (s : σ)
    (hc : w.cars[c]? = some (some ⟨some a⟩)) (h : w.heap[a]? = some cell)
    (hd : cell.deleted = 0) (ho : cell.obj = Obj.under_the_hood s) :
    car.copy_ctor w c =
      .ok ({ w with heap := w.heap ++ [⟨Obj.under_the_hood s, 1, 0⟩],
                    cars := w.cars ++ [some ⟨some w.heap.length⟩] }, w.cars.length) := by
  simp only [car.copy_ctor, car_at_eq w c _ hc, copy_eq w a cell s h hd ho]
  rfl

theorem copy_assign_eq (w : World σ) (d c a b : Nat) (cell cb : Cell σ) (s : σ)
    (hc : w.cars[c]? = some (some ⟨some a⟩)) (h : w.heap[a]? = some cell)
    (hd : cell.deleted = 0) (ho : cell.obj = Obj.under_the_hood s)
    (hdst : w.cars[d]? = some (some ⟨some b⟩)) (hb : w.heap[b]? = some cb) :
    car.copy_assign w d c =
      .ok { w with heap := (w.heap ++ [(⟨Obj.under_the_hood s, 1, 0⟩ : Cell σ)]).set b
                     ⟨cb.obj, cb.use_count - 1,
                       if cb.use_count - 1 = 0 then cb.deleted + 1 else cb.deleted⟩,
                   cars := w.cars.set d (some ⟨some w.heap.length⟩) } := by
  have hb1 : (car.make_shared w s).1.heap[b]? = some cb := by
    show (w.heap ++ [_])[b]? = some cb
    rw [List.getElem?_append_left (lt_of_getElem?_eq_some _ _ _ hb)]
    exact hb
  simp only [car.copy_assign, car_at_eq w c _ hc, car_at_eq w d _ hdst,
    copy_eq w a cell s h hd ho, shared_ptr_dtor_eq _ b cb hb1]
  rfl

theorem move_ctor_eq (w : World σ) (c a : Nat) (cell : Cell σ)
    (hc : w.cars[c]? = some (some ⟨some a⟩)) (h : w.heap[a]? = some cell) :
    car.move_ctor w c =
      .ok ({ w with heap := w.heap.set a { cell with use_count := cell.use_count + 1 },
                    cars := w.cars ++ [some ⟨some a⟩] }, w.cars.length) := by
  simp only [car.move_ctor, car_at_eq w c _ hc, shared_ptr_copy_eq w a cell h]
  rfl

theorem move_assign_eq (w : World σ) (d c a b : Nat) (cell cb : Cell σ)
    (hc : w.cars[c]? = some (some ⟨some a⟩)) (h : w.heap[a]? = some cell)
    (hdst : w.cars[d]? = some (some ⟨some b⟩))
    (hb : (w.heap.set a { cell with use_count := cell.use_count + 1 })[b]? = some cb) :
    car.move_assign w d c =
      .ok { w with
        heap := (w.heap.set a { cell with use_count := cell.use_count + 1 }).set b
                  ⟨cb.obj, cb.use_count - 1,
                    if cb.use_count - 1 = 0 then cb.deleted + 1 else cb.deleted⟩,
        cars := w.cars.set d (some ⟨some a⟩) } := by
  have hb1 : (shared_ptr_copy w (some a)).heap[b]? = some cb := by
    rw [shared_ptr_copy_eq w a cell h]
    exact hb
  simp only [car.move_assign, car_at_eq w c _ hc, car_at_eq w d _ hdst,
    shared_ptr_dtor_eq _ b cb hb1]
  rw [shared_ptr_copy_eq w a cell h]

/-! ## The invariant of the `car` operations -/

theorem ptr_ne {a x : Nat} (h : a ≠ x) :
    ¬ (some (car.mk (some a)) = some (car.mk (some x))) := by
  simp only [Option.some.injEq, car.mk.injEq]
  exact h

theorem none_ne_ptr (x : Nat) : ¬ ((none : Option car) = some (car.mk (some x))) := by
  simp

theorem ok_new (s : σ) : (⟨Obj.under_the_hood s, 1, 0⟩ : Cell σ).ok 1 :=
  ⟨⟨s, rfl⟩, rfl, rfl⟩

theorem ok_inc (cell : Cell σ) (n : Nat) (h : cell.ok n) (hn : 1 ≤ n) :
    ({ cell with use_count := cell.use_count + 1 } : Cell σ).ok (n + 1) := by
  obtain ⟨hs, huc, hdel⟩ := h
  refine ⟨hs, by simp [huc], ?_⟩
  simp only [hdel]
  rw [if_neg (by omega), if_neg (by omega)]

theorem ok_dec (cell : Cell σ) (n : Nat) (h : cell.ok n) (hn : 1 ≤ n) :
    (⟨cell.obj, cell.use_count - 1,
      if cell.use_count - 1 = 0 then cell.deleted + 1 else cell.deleted⟩ : Cell σ).ok
        (n - 1) := by
  obtain ⟨hs, huc, hdel⟩ := h
  refine ⟨hs, by simp [huc], ?_⟩
  simp only [hdel, huc]
  rw [if_neg (show ¬ n = 0 by omega)]

theorem car_inv_live (w : World σ) (hw : car_inv w) (i : Nat) (c : car)
    (h : w.cars[i]? = some (some c)) :
    ∃ a cell s, c = ⟨some a⟩ ∧ w.heap[a]? = some cell ∧
      cell.obj = Obj.under_the_hood s ∧ 1 ≤ w.owners a ∧ cell.deleted = 0 := by
  obtain ⟨a, ha, hlt⟩ := hw.1 i c h
  have hcell : w.heap[a]? = some w.heap[a] := List.getElem?_eq_getElem hlt
  obtain ⟨⟨s, hs⟩, huc, hdel⟩ := hw.2 a _ hcell
  have hca : c = ⟨some a⟩ := by
    cases c
    simp only at ha
    rw [ha]
  have hpos : 1 ≤ w.owners a := by
    rw [hca] at h
    exact count_pos_of_getElem? w.cars i _ h
  refine ⟨a, _, s, hca, hcell, hs, hpos, ?_⟩
  rw [hdel, if_neg (by omega)]

theorem singleton_getElem? {α : Type} (x y : α) (k : Nat) (h : [x][k]? = some y) :
    k = 0 ∧ x = y := by
  cases k with
  | zero => exact ⟨rfl, by simpa using h⟩
  | succ n => simp at h

theorem owners_fresh (w : World σ) (hw : car_inv w) :
    w.cars.count (some (car.mk (some w.heap.length))) = 0 := by
  apply count_zero_of
  intro i hi
  obtain ⟨b, hb, hlt⟩ := hw.1 i _ hi
  simp only [Option.some.injEq] at hb
  omega

theorem car_inv_push_new (w : World σ) (hw : car_inv w) (o : List String) (s : σ) :
    car_inv (World.mk o (w.heap ++ [⟨Obj.under_the_hood s, 1, 0⟩]) w.deleter_calls
      (w.cars ++ [some ⟨some w.heap.length⟩])) := by
  constructor
  · intro i c hi
    simp only [List.getElem?_append, List.length_append, List.length_singleton] at hi ⊢
    split_ifs at hi with h1
    · obtain ⟨a, ha, hlt⟩ := hw.1 i c hi
      exact ⟨a, ha, by omega⟩
    · obtain ⟨_, h2⟩ := singleton_getElem? _ _ _ hi
      simp only [Option.some.injEq] at h2
      exact ⟨w.heap.length, by rw [← h2], by omega⟩
  · intro a cell ha
    simp only [World.owners, count_concat_ptr]
    simp only [List.getElem?_append] at ha
    split_ifs at ha with h1
    · rw [if_neg (ptr_ne (by omega)), Nat.add_zero]
      exact hw.2 a cell ha
    · obtain ⟨h2, h3⟩ := singleton_getElem? _ _ _ ha
      have ha' : a = w.heap.length := by omega
      subst ha'
      rw [owners_fresh w hw, if_pos rfl, ← h3]
      exact ok_new s

theorem car_inv_drop (w : World σ) (hw : car_inv w) (o : List String) (i a : Nat)
    (cell : Cell σ) (hi : w.cars[i]? = some (some ⟨some a⟩)) (h : w.heap[a]? = some cell) :
    car_inv (World.mk o
      (w.heap.set a ⟨cell.obj, cell.use_count - 1,
        if cell.use_count - 1 = 0 then cell.deleted + 1 else cell.deleted⟩)
      w.deleter_calls (w.cars.set i none)) := by
  obtain ⟨a1, cell1, s, ha1, hcell1, hs, hpos, hdel0⟩ := car_inv_live w hw i _ hi
  simp only [car.mk.injEq, Option.some.injEq] at ha1
  subst ha1
  constructor
  · intro j c hj
    simp only [List.getElem?_set, List.length_set] at hj ⊢
    split_ifs at hj with h1 h2
    · cases hj
    · exact hw.1 j c hj
  · intro x cx hx
    simp only [World.owners, count_set_ptr w.cars i _ none _ hi]
    by_cases h1 : a = x
    · subst h1
      rw [List.getElem?_set_self (lt_of_getElem?_eq_some _ _ _ h)] at hx
      simp only [Option.some.injEq] at hx
      rw [if_pos rfl, if_neg (none_ne_ptr a), Nat.add_zero, ← hx]
      exact ok_dec cell _ (hw.2 a cell h) hpos
    · rw [List.getElem?_set_ne h1] at hx
      rw [if_neg (ptr_ne h1), if_neg (none_ne_ptr x), Nat.add_zero, Nat.sub_zero]
      exact hw.2 x cx hx

theorem car_inv_share (w : World σ) (hw : car_inv w) (o : List String) (c a : Nat)
    (cell : Cell σ) (hc : w.cars[c]? = some (some ⟨some a⟩)) (h : w.heap[a]? = some cell) :
    car_inv (World.mk o (w.heap.set a { cell with use_count := cell.use_count + 1 })
      w.deleter_calls (w.cars ++ [some ⟨some a⟩])) := by
  obtain ⟨a1, cell1, s, ha1, hcell1, hs, hpos, hdel0⟩ := car_inv_live w hw c _ hc
  simp only [car.mk.injEq, Option.some.injEq] at ha1
  subst ha1
  have hlt := lt_of_getElem?_eq_some _ _ _ h
  constructor
  · intro i c1 hi
    simp only [List.getElem?_append, List.length_set] at hi ⊢
    split_ifs at hi with h1
    · exact hw.1 i c1 hi
    · obtain ⟨_, h2⟩ := singleton_getElem? _ _ _ hi
      simp only [Option.some.injEq] at h2
      exact ⟨a, by rw [← h2], hlt⟩
  · intro x cx hx
    simp only [World.owners, count_concat_ptr]
    by_cases h1 : a = x
    · subst h1
      rw [List.getElem?_set_self hlt] at hx
      simp only [Option.some.injEq] at hx
      rw [if_pos rfl, ← hx]
      exact ok_inc cell _ (hw.2 a cell h) hpos
    · rw [List.getElem?_set_ne h1] at hx
      rw [if_neg (ptr_ne h1), Nat.add_zero]
      exact hw.2 x cx hx

theorem car_inv_reassign_new (w : World σ) (hw : car_inv w) (o : List String) (d b : Nat)
    (cb : Cell σ) (s : σ) (hd : w.cars[d]? = some (some ⟨some b⟩))
    (hb : w.heap[b]? = some cb) :
    car_inv (World.mk o
      ((w.heap ++ [(⟨Obj.under_the_hood s, 1, 0⟩ : Cell σ)]).set b
        ⟨cb.obj, cb.use_count - 1,
          if cb.use_count - 1 = 0 then cb.deleted + 1 else cb.deleted⟩)
      w.deleter_calls (w.cars.set d (some ⟨some w.heap.length⟩))) := by
  obtain ⟨a1, cell1, s1, ha1, hcell1, hs, hpos, hdel0⟩ := car_inv_live w hw d _ hd
  simp only [car.mk.injEq, Option.some.injEq] at ha1
  subst ha1
  have hlt := lt_of_getElem?_eq_some _ _ _ hb
  constructor
  · intro j c hj
    simp only [List.getElem?_set, List.length_set, List.length_append,
      List.length_singleton] at hj ⊢
    split_ifs at hj with h1 h2
    · simp only [Option.some.injEq] at hj
      exact ⟨w.heap.length, by rw [← hj], by omega⟩
    · obtain ⟨a, ha, hlt'⟩ := hw.1 j c hj
      exact ⟨a, ha, by omega⟩
  · intro x cx hx
    simp only [World.owners, count_set_ptr w.cars d _ (some ⟨some w.heap.length⟩) _ hd]
    by_cases h1 : b = x
    · subst h1
      rw [List.getElem?_set_self (by simp only [List.length_append]; omega)] at hx
      simp only [Option.some.injEq] at hx
      rw [if_pos rfl, if_neg (ptr_ne (by omega)), Nat.add_zero, ← hx]
      exact ok_dec cb _ (hw.2 b cb hb) hpos
    · rw [List.getElem?_set_ne h1, List.getElem?_append] at hx
      rw [if_neg (ptr_ne h1), Nat.sub_zero]
      split_ifs at hx with h2
      · rw [if_neg (ptr_ne (by omega)), Nat.add_zero]
        exact hw.2 x cx hx
      · obtain ⟨h3, h4⟩ := singleton_getElem? _ _ _ hx
        have hx' : x = w.heap.length := by omega
        subst hx'
        rw [owners_fresh w hw, if_pos rfl, ← h4]
        exact ok_new s

theorem car_inv_reassign_share (w : World σ) (hw : car_inv w) (o : List String)
    (d c a b : Nat) (cell cb : Cell σ)
    (hc : w.cars[c]? = some (some ⟨some a⟩)) (h : w.heap[a]? = some cell)
    (hd : w.cars[d]? = some (some ⟨some b⟩))
    (hb : (w.heap.set a { cell with use_count := cell.use_count + 1 })[b]? = some cb) :
    car_inv (World.mk o
      ((w.heap.set a { cell with use_count := cell.use_count + 1 }).set b
        ⟨cb.obj, cb.use_count - 1,
          if cb.use_count - 1 = 0 then cb.deleted + 1 else cb.deleted⟩)
      w.deleter_calls (w.cars.set d (some ⟨some a⟩))) := by
  obtain ⟨a1, cell1, s1, ha1, hcell1, hs, hposa, hdel0⟩ := car_inv_live w hw c _ hc
  simp only [car.mk.injEq, Option.some.injEq] at ha1
  subst ha1
  obtain ⟨b1, cell2, s2, hb1, hcell2, hs2, hposb, hdel2⟩ := car_inv_live w hw d _ hd
  simp only [car.mk.injEq, Option.some.injEq] at hb1
  subst hb1
  have hlta := lt_of_getElem?_eq_some _ _ _ h
  have hltb := lt_of_getElem?_eq_some _ _ _ hcell2
  constructor
  · intro j c1 hj
    simp only [List.getElem?_set, List.length_set] at hj ⊢
    split_ifs at hj with h1 h2
    · simp only [Option.some.injEq] at hj
      exact ⟨a, by rw [← hj], hlta⟩
    · exact hw.1 j c1 hj
  · intro x cx hx
    simp only [World.owners, count_set_ptr w.cars d _ (some ⟨some a⟩) _ hd]
    by_cases hab : a = b
    · subst hab
      rw [List.getElem?_set_self hlta] at hb
      simp only [Option.some.injEq] at hb
      by_cases h1 : a = x
      · subst h1
        rw [List.getElem?_set_self (by simpa using hlta)] at hx
        simp only [Option.some.injEq] at hx
        have hposa1 : 1 ≤ List.count (some (car.mk (some a))) w.cars := hposa
        rw [if_pos rfl, Nat.sub_add_cancel hposa1, ← hx, ← hb]
        have := ok_dec _ _ (ok_inc cell _ (hw.2 a cell h) hposa) (by omega)
        simpa using this
      · rw [List.getElem?_set_ne h1, List.getElem?_set_ne h1] at hx
        rw [if_neg (ptr_ne h1), Nat.add_zero, Nat.sub_zero]
        exact hw.2 x cx hx
    · rw [List.getElem?_set_ne hab, hcell2] at hb
      simp only [Option.some.injEq] at hb
      subst hb
      by_cases h1 : b = x
      · subst h1
        rw [List.getElem?_set_self (by simpa using hltb)] at hx
        simp only [Option.some.injEq] at hx
        rw [if_pos rfl, if_neg (ptr_ne hab), Nat.add_zero, ← hx]
        exact ok_dec _ _ (hw.2 b _ hcell2) hposb
      · rw [List.getElem?_set_ne h1] at hx
        rw [if_neg (ptr_ne h1), Nat.sub_zero]
        by_cases h2 : a = x
        · subst h2
          rw [List.getElem?_set_self hlta] at hx
          simp only [Option.some.injEq] at hx
          rw [if_pos rfl, ← hx]
          exact ok_inc cell _ (hw.2 a cell h) hposa
        · rw [List.getElem?_set_ne h2] at hx
          rw [if_neg (ptr_ne h2), Nat.add_zero]
          exact hw.2 x cx hx

theorem live_true (w : World σ) (i : Nat) (h : w.live i = true) :
    ∃ c, w.cars[i]? = some (some c) := by
  unfold World.live at h
  split at h
  · rename_i c hc
    exact ⟨c, hc⟩
  · cases h

theorem car_at_dead (w : World σ) (i : Nat) (h : w.live i = false) :
    w.car_at i = .error .no_such_car := by
  unfold World.live at h
  unfold World.car_at
  split at h
  · cases h
  · rfl

theorem car_inv_empty : car_inv (World.empty : World σ) := by
  constructor
  · intro i c h
    simp [World.empty] at h
  · intro a cell h
    simp [World.empty] at h

theorem ctor_inv [Inhabited σ] (w : World σ) (hw : car_inv w) :
    car_inv (car.ctor w).1 ∧ (car.ctor w).1.out = w.out ++ ["car"] ∧
      (car.ctor w).1.heap.length = w.heap.length + 1 := by
  rw [car_ctor_eq]
  exact ⟨car_inv_push_new w hw _ default, rfl, by simp⟩

theorem copy_ctor_inv (w : World σ) (hw : car_inv w) (c : Nat) (hl : w.live c = true) :
    ∃ w1, car.copy_ctor w c = .ok (w1, w.cars.length) ∧ car_inv w1 ∧ w1.out = w.out ∧
      w1.heap.length = w.heap.length + 1 := by
  obtain ⟨x, hx⟩ := live_true w c hl
  obtain ⟨a, cell, s, rfl, hcell, hs, _, hdel⟩ := car_inv_live w hw c x hx
  exact ⟨_, copy_ctor_eq w c a cell s hx hcell hdel hs, car_inv_push_new w hw _ s, rfl,
    by simp⟩

theorem copy_assign_inv (w : World σ) (hw : car_inv w) (d c : Nat)
    (hd : w.live d = true) (hl : w.live c = true) :
    ∃ w1, car.copy_assign w d c = .ok w1 ∧ car_inv w1 ∧ w1.out = w.out ∧
      w1.heap.length = w.heap.length + 1 := by
  obtain ⟨x, hx⟩ := live_true w c hl
  obtain ⟨a, cell, s, rfl, hcell, hs, _, hdel⟩ := car_inv_live w hw c x hx
  obtain ⟨y, hy⟩ := live_true w d hd
  obtain ⟨b, cb, _, rfl, hcb, _, _, _⟩ := car_inv_live w hw d y hy
  exact ⟨_, copy_assign_eq w d c a b cell cb s hx hcell hdel hs hy hcb,
    car_inv_reassign_new w hw _ d b cb s hy hcb, rfl, by simp⟩

theorem move_ctor_inv (w : World σ) (hw : car_inv w) (c : Nat) (hl : w.live c = true) :
    ∃ w1, car.move_ctor w c = .ok (w1, w.cars.length) ∧ car_inv w1 ∧ w1.out = w.out ∧
      w1.heap.length = w.heap.length := by
  obtain ⟨x, hx⟩ := live_true w c hl
  obtain ⟨a, cell, s, rfl, hcell, hs, _, hdel⟩ := car_inv_live w hw c x hx
  exact ⟨_, move_ctor_eq w c a cell hx hcell, car_inv_share w hw _ c a cell hx hcell, rfl,
    by simp⟩

theorem move_assign_inv (w : World σ) (hw : car_inv w) (d c : Nat)
    (hd : w.live d = true) (hl : w.live c = true) :
    ∃ w1, car.move_assign w d c = .ok w1 ∧ car_inv w1 ∧ w1.out = w.out ∧
      w1.heap.length = w.heap.length := by
  obtain ⟨x, hx⟩ := live_true w c hl
  obtain ⟨a, cell, s, rfl, hcell, hs, _, hdel⟩ := car_inv_live w hw c x hx
  obtain ⟨y, hy⟩ := live_true w d hd
  obtain ⟨b, cb, _, rfl, hcb, _, _, _⟩ := car_inv_live w hw d y hy
  have hlt : b < (w.heap.set a { cell with use_count := cell.use_count + 1 }).length := by
    simpa using lt_of_getElem?_eq_some _ _ _ hcb
  have hb := List.getElem?_eq_getElem hlt
  exact ⟨_, move_assign_eq w d c a b cell _ hx hcell hy hb,
    car_inv_reassign_share w hw _ d c a b cell _ hx hcell hy hb, rfl, by simp⟩

theorem dtor_inv (w : World σ) (hw : car_inv w) (c : Nat) (hl : w.live c = true) :
    ∃ w1, car.dtor w c = .ok w1 ∧ car_inv w1 ∧ w1.out = w.out ++ ["~car"] ∧
      w1.heap.length = w.heap.length := by
  obtain ⟨x, hx⟩ := live_true w c hl
  obtain ⟨a, cell, s, rfl, hcell, hs, _, hdel⟩ := car_inv_live w hw c x hx
  exact ⟨_, car_dtor_eq w c a cell hx hcell, car_inv_drop w hw _ c a cell hx hcell, rfl,
    by simp⟩

theorem car_step_inv [Inhabited σ] (w : World σ) (hw : car_inv w) (op : CarOp)
    (hv : op.valid w = true) :
    ∃ w1, car.step w op = .ok w1 ∧ car_inv w1 ∧
      w1.heap.length = w.heap.length + (if op.creates = true then 1 else 0) := by
  cases op with
  | ctor =>
    obtain ⟨h1, _, h3⟩ := ctor_inv w hw
    exact ⟨_, rfl, h1, by simpa [CarOp.creates] using h3⟩
  | copy_ctor c =>
    obtain ⟨w1, h0, h1, _, h3⟩ := copy_ctor_inv w hw c hv
    exact ⟨w1, by simp [car.step, h0, Except.map], h1, by simpa [CarOp.creates] using h3⟩
  | copy_assign d c =>
    simp only [CarOp.valid, Bool.and_eq_true] at hv
    obtain ⟨w1, h0, h1, _, h3⟩ := copy_assign_inv w hw d c hv.1 hv.2
    exact ⟨w1, by simp [car.step, h0], h1, by simpa [CarOp.creates] using h3⟩
  | move_ctor c =>
    obtain ⟨w1, h0, h1, _, h3⟩ := move_ctor_inv w hw c hv
    exact ⟨w1, by simp [car.step, h0, Except.map], h1, by simpa [CarOp.creates] using h3⟩
  | move_assign d c =>
    simp only [CarOp.valid, Bool.and_eq_true] at hv
    obtain ⟨w1, h0, h1, _, h3⟩ := move_assign_inv w hw d c hv.1 hv.2
    exact ⟨w1, by simp [car.step, h0], h1, by simpa [CarOp.creates] using h3⟩
  | dtor c =>
    obtain ⟨w1, h0, h1, _, h3⟩ := dtor_inv w hw c hv
    exact ⟨w1, by simp [car.step, h0], h1, by simpa [CarOp.creates] using h3⟩

theorem car_step_invalid [Inhabited σ] (w : World σ) (op : CarOp)
    (hv : op.valid w = false) : car.step w op = .error .no_such_car := by
  cases op with
  | ctor => simp [CarOp.valid] at hv
  | copy_ctor c =>
    simp only [CarOp.valid] at hv
    simp [car.step, car.copy_ctor, car_at_dead w c hv, Except.map]
  | copy_assign d c =>
    simp only [CarOp.valid, Bool.and_eq_false_iff] at hv
    rcases hv with hv | hv
    · simp [car.step, car.copy_assign, car_at_dead w d hv]
    · cases hd : w.live d with
      | false => simp [car.step, car.copy_assign, car_at_dead w d hd]
      | true =>
        obtain ⟨y, hy⟩ := live_true w d hd
        simp [car.step, car.copy_assign, car_at_eq w d y hy, car_at_dead w c hv]
  | move_ctor c =>
    simp only [CarOp.valid] at hv
    simp [car.step, car.move_ctor, car_at_dead w c hv, Except.map]
  | move_assign d c =>
    simp only [CarOp.valid, Bool.and_eq_false_iff] at hv
    rcases hv with hv | hv
    · simp [car.step, car.move_assign, car_at_dead w d hv]
    · cases hd : w.live d with
      | false => simp [car.step, car.move_assign, car_at_dead w d hd]
      | true =>
        obtain ⟨y, hy⟩ := live_true w d hd
        simp [car.step, car.move_assign, car_at_eq w d y hy, car_at_dead w c hv]
  | dtor c =>
    simp only [CarOp.valid] at hv
    simp [car.step, car.dtor, car_at_dead w c hv]

theorem car_run_inv [Inhabited σ] (ops : List CarOp) (w : World σ) (hw : car_inv w) :
    car.run w ops = .error .no_such_car ∨
    ∃ w1, car.run w ops = .ok w1 ∧ car_inv w1 ∧
      w1.heap.length = w.heap.length + (ops.filter CarOp.creates).length := by
  induction ops generalizing w with
  | nil => exact Or.inr ⟨w, rfl, hw, by simp⟩
  | cons op rest ih =>
    cases hv : op.valid w with
    | false =>
      left
      simp [car.run, car_step_invalid w op hv]
    | true =>
      obtain ⟨w1, h0, h1, h2⟩ := car_step_inv w hw op hv
      rcases ih w1 h1 with h3 | ⟨w2, h3, h4, h5⟩
      · left
        simp [car.run, h0, h3]
      · right
        refine ⟨w2, by simp [car.run, h0, h3], h4, ?_⟩
        rw [h5, h2, List.filter_cons]
        split_ifs
        · simp only [List.length_cons]
          omega
        · omega

/-! ## Construction and destruction of the exclusive owners -/

/-- C1, as the code behaves: constructing a `MyClass` appends exactly two lines
to standard output, the construction line of the hidden `MyClassImp` first and
the construction line of the owner second, because the member initialiser
`pimpl_( new MyClassImp() )` runs before the body of the constructor. -/
theorem MyClass_ctor_lines (w : World σ) :
    (MyClass.ctor w).1.out = w.out ++ ["MyClassImp", "MyClass"] := by
  simp [MyClass_ctor_eq]

/-- C1 as stated fails: from the empty output, constructing a `MyClass` does not
leave the owner's line followed by the hidden object's line; the output is the
hidden object's line followed by the owner's. -/
theorem MyClass_ctor_owner_line_not_first :
    (MyClass.ctor (World.empty : World Unit)).1.out ≠
        (World.empty : World Unit).out ++ ["MyClass", "MyClassImp"] ∧
      (MyClass.ctor (World.empty : World Unit)).1.out = ["MyClassImp", "MyClass"] := by
  decide

/-- C2: for `widget`, `MyClass`, `foo` and `bar`, constructing an instance and
then destroying it writes the owner's destruction line and leaves the hidden
object, the one new cell of the free store, released exactly once; for `MyClass`
the line `~MyClassImp` is written once, after `~MyClass`, and for `bar` the
release is the one call of `impl_deleter` on the hidden object. More generally,
destroying an owner whose hidden object is in cell `p` writes the owner's line,
adds exactly one release to cell `p`, and changes nothing else. -/
theorem exclusive_owner_releases_once (w : World σ) :
    (widget.dtor (widget.ctor w).1 (widget.ctor w).2 =
        { w with out := w.out ++ ["widget", "~widget"],
                 heap := w.heap ++ [⟨Obj.widget_impl, 0, 1⟩] }) ∧
    (MyClass.dtor (MyClass.ctor w).1 (MyClass.ctor w).2 =
        { w with out := w.out ++ ["MyClassImp", "MyClass", "~MyClass", "~MyClassImp"],
                 heap := w.heap ++ [⟨Obj.MyClassImp none, 0, 1⟩] }) ∧
    ((foo.ctor w).map (fun r => foo.dtor r.1 r.2) =
        .ok { w with out := w.out ++ ["foo", "foo::do_internal_work()", "~foo"],
                     heap := w.heap ++ [⟨Obj.foo_impl 5, 0, 1⟩] }) ∧
    ((bar.ctor w).map (fun r => bar.dtor r.1 r.2) =
        .ok { w with out := w.out ++ ["bar", "bar::do_internal_work()", "~bar"],
                     heap := w.heap ++ [⟨Obj.bar_impl 5, 0, 1⟩],
                     deleter_calls := w.deleter_calls ++ [w.heap.length] }) ∧
    (∀ (p : Nat) (c : Cell σ), w.heap[p]? = some c →
      (widget.dtor w ⟨some p⟩ =
        { w with out := w.out ++ ["~widget"],
                 heap := w.heap.set p { c with deleted := c.deleted + 1 } }) ∧
      (MyClass.dtor w ⟨some p⟩ =
        { w with out := w.out ++ ["~MyClass", "~MyClassImp"],
                 heap := w.heap.set p { c with deleted := c.deleted + 1 } }) ∧
      (foo.dtor w ⟨some p⟩ =
        { w with out := w.out ++ ["~foo"],
                 heap := w.heap.set p { c with deleted := c.deleted + 1 } }) ∧
      (bar.dtor w ⟨some p⟩ =
        { w with out := w.out ++ ["~bar"],
                 heap := w.heap.set p { c with deleted := c.deleted + 1 },
                 deleter_calls := w.deleter_calls ++ [p] })) := by
  refine ⟨?_, ?_, ?_, ?_, ?_⟩
  · rw [widget_ctor_eq, widget_dtor_eq _ w.heap.length ⟨Obj.widget_impl, 0, 0⟩
      (List.getElem?_concat_length _ _)]
    simp [set_concat_length]
  · rw [MyClass_ctor_eq, MyClass_dtor_eq _ w.heap.length ⟨Obj.MyClassImp none, 0, 0⟩
      (List.getElem?_concat_length _ _)]
    simp [set_concat_length]
  · rw [foo_ctor_eq]
    simp only [Except.map]
    rw [foo_dtor_eq _ w.heap.length ⟨Obj.foo_impl 5, 0, 0⟩ (List.getElem?_concat_length _ _)]
    simp [set_concat_length]
  · rw [bar_ctor_eq]
    simp only [Except.map]
    rw [bar_dtor_eq _ w.heap.length ⟨Obj.bar_impl 5, 0, 0⟩ (List.getElem?_concat_length _ _)]
    simp [set_concat_length]
  · intro p c h
    refine ⟨widget_dtor_eq w p c h, ?_, foo_dtor_eq w p c h, bar_dtor_eq w p c h⟩
    rw [MyClass_dtor_eq w p c h]
    simp

/-- C2 at a concrete state: after `MyClass mc; mc.Public_Method();` the hidden
object is in cell `0`, and destroying `mc` writes `~MyClass`, `~MyClassImp` and
leaves that cell released once. -/
theorem exclusive_owner_releases_once_witness :
    (World.mk ["MyClassImp", "MyClass", "MyClass::Public_Method()"]
        [⟨Obj.MyClassImp (some 3), 0, 0⟩] [] [] : World Unit).heap[0]? =
      some ⟨Obj.MyClassImp (some 3), 0, 0⟩ ∧
    MyClass.dtor (World.mk ["MyClassImp", "MyClass", "MyClass::Public_Method()"]
        [⟨Obj.MyClassImp (some 3), 0, 0⟩] [] [] : World Unit) ⟨some 0⟩ =
      World.mk ["MyClassImp", "MyClass", "MyClass::Public_Method()", "~MyClass", "~MyClassImp"]
        [⟨Obj.MyClassImp (some 3), 0, 1⟩] [] [] :=
  ⟨rfl, ((exclusive_owner_releases_once (World.mk
      ["MyClassImp", "MyClass", "MyClass::Public_Method()"]
      [⟨Obj.MyClassImp (some 3), 0, 0⟩] [] [] : World Unit)).2.2.2.2 0
      ⟨Obj.MyClassImp (some 3), 0, 0⟩ rfl).2.1⟩

/-! ## The demonstration sequence -/

/-- C5: from any state, `main` runs to completion and appends to standard output
the construction and work lines of `mc`, `fighter`, `stool` and `wreck` in that
order, and then the destruction lines in reverse order of construction: `~car`,
`~bar`, `~foo`, `~MyClass` (the last followed by the line of its hidden
object). -/
theorem main_output [Inhabited σ] (w : World σ) :
    ∃ w1 : World σ, main w = .ok w1 ∧
      w1.out = w.out ++
        ["MyClassImp", "MyClass", "MyClass::Public_Method()", "foo", "foo::do_internal_work()",
          "bar", "bar::do_internal_work()", "car"] ++
        ["~car", "~bar", "~foo", "~MyClass", "~MyClassImp"] := by
  refine ⟨_, main_eq w, ?_⟩
  simp

/-- C9: the complete standard output of one run of the program, the globals
`pws` and `pwu` included, is the seventeen lines listed. -/
theorem program_stdout :
    program.map World.out =
      .ok ["widget", "widget", "MyClassImp", "MyClass", "MyClass::Public_Method()", "foo",
        "foo::do_internal_work()", "bar", "bar::do_internal_work()", "car", "~car", "~bar",
        "~foo", "~MyClass", "~MyClassImp", "~widget", "~widget"] := by
  rfl

/-! ## The domain method of `MyClass` -/

/-- C6: when the hidden object of `m` is the live `MyClassImp` in cell `p`,
`m.Public_Method()` returns, sets `private_var_` of that object to `3` without
touching its owner count or its release count, leaves every other cell of the
free store, the size of the free store, every `car`, the record of deleter
calls and `m` itself (so the hidden object it owns) unchanged, and appends its
one line to standard output. -/
theorem Public_Method_frame (w : World σ) (m : MyClass) (p : Nat) (c : Cell σ)
    (v : Option Int) (hm : m.pimpl_ = some p) (h : w.heap[p]? = some c)
    (hd : c.deleted = 0) (ho : c.obj = Obj.MyClassImp v) :
    ∃ w1 : World σ, MyClass.Public_Method w m = .ok (w1, m) ∧
      w1.heap[p]? = some ⟨Obj.MyClassImp (some 3), c.use_count, c.deleted⟩ ∧
      (∀ q, q ≠ p → w1.heap[q]? = w.heap[q]?) ∧
      w1.heap.length = w.heap.length ∧
      w1.cars = w.cars ∧
      w1.deleter_calls = w.deleter_calls ∧
      w1.out = w.out ++ ["MyClass::Public_Method()"] := by
  have hlt : p < w.heap.length := by
    rcases Nat.lt_or_ge p w.heap.length with h1 | h1
    · exact h1
    · rw [List.getElem?_eq_none h1] at h
      cases h
  cases m with
  | mk q =>
    cases hm
    refine ⟨_, Public_Method_eq w p c v h hd ho, ?_, ?_, ?_, rfl, rfl, rfl⟩
    · simp [List.getElem?_set_self hlt]
    · intro q hq
      simp [List.getElem?_set_ne (Ne.symm hq)]
    · simp

/-- C6 at a concrete state: the method called on a freshly constructed `MyClass`. -/
theorem Public_Method_frame_witness :
    ∃ w1 : World Unit,
      MyClass.Public_Method (MyClass.ctor (World.empty : World Unit)).1
          (MyClass.ctor (World.empty : World Unit)).2 =
        .ok (w1, (MyClass.ctor (World.empty : World Unit)).2) ∧
      w1.heap[0]? = some ⟨Obj.MyClassImp (some 3), 0, 0⟩ ∧
      (∀ q, q ≠ 0 → w1.heap[q]? = (MyClass.ctor (World.empty : World Unit)).1.heap[q]?) ∧
      w1.heap.length = (MyClass.ctor (World.empty : World Unit)).1.heap.length ∧
      w1.cars = (MyClass.ctor (World.empty : World Unit)).1.cars ∧
      w1.deleter_calls = (MyClass.ctor (World.empty : World Unit)).1.deleter_calls ∧
      w1.out = (MyClass.ctor (World.empty : World Unit)).1.out ++ ["MyClass::Public_Method()"] :=
  Public_Method_frame (MyClass.ctor (World.empty : World Unit)).1
    (MyClass.ctor (World.empty : World Unit)).2 0 ⟨Obj.MyClassImp none, 0, 0⟩ none
    rfl rfl rfl rfl

/-! ## Copying and moving a `car` -/

/-- C3: when the `car` in slot `c` points at the live `under_the_hood` in cell
`a` with members `s`, copy construction from `c` returns a new `car` whose
`pImpl` is the cell just allocated, which did not exist before, differs from
`a` and holds the members `s` with one owner; `c` still points at `a`, whose
cell is as before. Copy assignment to any live `car` in slot `d`, `d = c`
included, leaves `d` pointing at such a new cell, and `c`, if it is another
object, still pointing at `a`, whose members are as before. In both cases an
assignment to the members behind one of the two pointers leaves the cell
behind the other as it is. -/
theorem car_copy_independent (w : World σ) (c a : Nat) (cell : Cell σ) (s : σ)
    (hc : w.cars[c]? = some (some ⟨some a⟩)) (h : w.heap[a]? = some cell)
    (hd : cell.deleted = 0) (ho : cell.obj = Obj.under_the_hood s) :
    (∃ w1 : World σ, car.copy_ctor w c = .ok (w1, w.cars.length) ∧
      w1.cars[w.cars.length]? = some (some ⟨some w.heap.length⟩) ∧
      w1.cars[c]? = some (some ⟨some a⟩) ∧
      a ≠ w.heap.length ∧ w.heap[w.heap.length]? = none ∧
      w1.heap[w.heap.length]? = some ⟨Obj.under_the_hood s, 1, 0⟩ ∧
      w1.heap[a]? = some cell ∧
      (∀ c1 o, (w1.write a c1 o).heap[w.heap.length]? = w1.heap[w.heap.length]?) ∧
      (∀ c1 o, (w1.write w.heap.length c1 o).heap[a]? = w1.heap[a]?)) ∧
    (∀ (d b : Nat) (cb : Cell σ), w.cars[d]? = some (some ⟨some b⟩) →
      w.heap[b]? = some cb →
      ∃ w1 : World σ, car.copy_assign w d c = .ok w1 ∧
        w1.cars[d]? = some (some ⟨some w.heap.length⟩) ∧
        (d ≠ c → w1.cars[c]? = some (some ⟨some a⟩)) ∧
        a ≠ w.heap.length ∧ w.heap[w.heap.length]? = none ∧
        w1.heap[w.heap.length]? = some ⟨Obj.under_the_hood s, 1, 0⟩ ∧
        w1.heap[a]?.map Cell.obj = some (Obj.under_the_hood s) ∧
        (∀ c1 o, (w1.write a c1 o).heap[w.heap.length]? = w1.heap[w.heap.length]?) ∧
        (∀ c1 o, (w1.write w.heap.length c1 o).heap[a]? = w1.heap[a]?)) := by
  have hlt : a < w.heap.length := lt_of_getElem?_eq_some _ _ _ h
  have hne : a ≠ w.heap.length := by omega
  have hclt : c < w.cars.length := lt_of_getElem?_eq_some _ _ _ hc
  constructor
  · refine ⟨_, copy_ctor_eq w c a cell s hc h hd ho, ?_, ?_, hne, ?_, ?_, ?_, ?_, ?_⟩
    · exact List.getElem?_concat_length _ _
    · show (w.cars ++ [_])[c]? = _
      rw [List.getElem?_append_left hclt]
      exact hc
    · exact List.getElem?_eq_none (Nat.le_refl _)
    · exact List.getElem?_concat_length _ _
    · show (w.heap ++ [_])[a]? = _
      rw [List.getElem?_append_left hlt]
      exact h
    · intro c1 o
      exact List.getElem?_set_ne hne
    · intro c1 o
      exact List.getElem?_set_ne (Ne.symm hne)
  · intro d b cb hdst hb
    have hblt : b < w.heap.length := lt_of_getElem?_eq_some _ _ _ hb
    have hdlt : d < w.cars.length := lt_of_getElem?_eq_some _ _ _ hdst
    refine ⟨_, copy_assign_eq w d c a b cell cb s hc h hd ho hdst hb, ?_, ?_, hne, ?_, ?_,
      ?_, ?_, ?_⟩
    · exact List.getElem?_set_self hdlt
    · intro hdc
      show (w.cars.set d _)[c]? = _
      rw [List.getElem?_set_ne hdc]
      exact hc
    · exact List.getElem?_eq_none (Nat.le_refl _)
    · show ((w.heap ++ [_]).set b _)[w.heap.length]? = _
      rw [List.getElem?_set_ne (by omega)]
      exact List.getElem?_concat_length _ _
    · show (((w.heap ++ [_]).set b _)[a]?).map Cell.obj = _
      by_cases hba : b = a
      · subst hba
        rw [List.getElem?_set_self (by simp only [List.length_append]; omega)]
        rw [h] at hb
        cases hb
        simp [ho]
      · rw [List.getElem?_set_ne hba, List.getElem?_append_left hlt, h]
        simp [ho]
    · intro c1 o
      exact List.getElem?_set_ne hne
    · intro c1 o
      exact List.getElem?_set_ne (Ne.symm hne)

/-- C3 at a concrete state: after `car c; car d;` the copy construction
`car e(c)` and the copy assignment `d = c`. -/
theorem car_copy_independent_witness :
    (∃ w1 : World Unit, car.copy_ctor (car.ctor (car.ctor World.empty).1).1 0 = .ok (w1, 2) ∧
      w1.cars[2]? = some (some ⟨some 2⟩) ∧ w1.cars[0]? = some (some ⟨some 0⟩) ∧
      w1.heap[2]? = some ⟨Obj.under_the_hood (), 1, 0⟩) ∧
    (∃ w1 : World Unit, car.copy_assign (car.ctor (car.ctor World.empty).1).1 1 0 = .ok w1 ∧
      w1.cars[1]? = some (some ⟨some 2⟩) ∧ w1.cars[0]? = some (some ⟨some 0⟩) ∧
      w1.heap[2]? = some ⟨Obj.under_the_hood (), 1, 0⟩) := by
  have key := car_copy_independent (car.ctor (car.ctor (World.empty : World Unit)).1).1 0 0
    ⟨Obj.under_the_hood (), 1, 0⟩ () rfl rfl rfl rfl
  obtain ⟨⟨w1, h1, h2, h3, _, _, h4, _⟩, k⟩ := key
  obtain ⟨w2, g1, g2, g3, _, _, g4, _⟩ := k 1 1 ⟨Obj.under_the_hood (), 1, 0⟩ rfl rfl
  exact ⟨⟨w1, h1, h2, h3, h4⟩, ⟨w2, g1, g2, g3 (by decide), g4⟩⟩

/-- C4, as the code behaves: when the `car` in slot `c` points at cell `a`, the
declared move construction from `c` returns a new `car` that points at `a`,
leaves `c` pointing at `a`, and raises the owner count of `a` by one. The
declared move assignment to a live `car` in slot `d` leaves both `d` and `c`
pointing at `a`; the owner count of `a` is raised by one when `d` pointed at
another cell before, and is unchanged when `d` already pointed at `a` (`d = c`
included). -/
theorem car_move_shares (w : World σ) (c a : Nat) (cell : Cell σ)
    (hc : w.cars[c]? = some (some ⟨some a⟩)) (h : w.heap[a]? = some cell) :
    (∃ w1 : World σ, car.move_ctor w c = .ok (w1, w.cars.length) ∧
      w1.cars[c]? = some (some ⟨some a⟩) ∧
      w1.cars[w.cars.length]? = some (some ⟨some a⟩) ∧
      w1.heap[a]? = some { cell with use_count := cell.use_count + 1 }) ∧
    (∀ (d b : Nat) (cb : Cell σ), w.cars[d]? = some (some ⟨some b⟩) →
      w.heap[b]? = some cb →
      ∃ w1 : World σ, car.move_assign w d c = .ok w1 ∧
        w1.cars[c]? = some (some ⟨some a⟩) ∧
        w1.cars[d]? = some (some ⟨some a⟩) ∧
        w1.heap[a]?.map Cell.use_count =
          some (if b = a then cell.use_count else cell.use_count + 1)) := by
  have hlt : a < w.heap.length := lt_of_getElem?_eq_some _ _ _ h
  have hclt : c < w.cars.length := lt_of_getElem?_eq_some _ _ _ hc
  constructor
  · refine ⟨_, move_ctor_eq w c a cell hc h, ?_, ?_, ?_⟩
    · show (w.cars ++ [_])[c]? = _
      rw [List.getElem?_append_left hclt]
      exact hc
    · exact List.getElem?_concat_length _ _
    · exact List.getElem?_set_self hlt
  · intro d b cb hdst hb
    have hblt : b < w.heap.length := lt_of_getElem?_eq_some _ _ _ hb
    have hdlt : d < w.cars.length := lt_of_getElem?_eq_some _ _ _ hdst
    have hlt1 : b < (w.heap.set a { cell with use_count := cell.use_count + 1 }).length := by
      simpa using hblt
    have hb1 := List.getElem?_eq_getElem hlt1
    refine ⟨_, move_assign_eq w d c a b cell _ hc h hdst hb1, ?_, ?_, ?_⟩
    · show (w.cars.set d _)[c]? = _
      by_cases hdc : d = c
      · subst hdc
        exact List.getElem?_set_self hdlt
      · rw [List.getElem?_set_ne hdc]
        exact hc
    · exact List.getElem?_set_self hdlt
    · show (((w.heap.set a _).set b _)[a]?).map Cell.use_count = _
      by_cases hba : b = a
      · subst hba
        rw [List.getElem?_set_self hlt1, if_pos rfl]
        simp
      · rw [List.getElem?_set_ne hba, List.getElem?_set_self hlt, if_neg hba]
        rfl

/-- C4 at a concrete state: after `car c; car d;` the move construction
`car e(std::move(c))` and the move assignment `d = std::move(c)`. -/
theorem car_move_shares_witness :
    (∃ w1 : World Unit, car.move_ctor (car.ctor (car.ctor World.empty).1).1 0 = .ok (w1, 2) ∧
      w1.cars[0]? = some (some ⟨some 0⟩) ∧ w1.cars[2]? = some (some ⟨some 0⟩) ∧
      w1.heap[0]? = some ⟨Obj.under_the_hood (), 2, 0⟩) ∧
    (∃ w1 : World Unit, car.move_assign (car.ctor (car.ctor World.empty).1).1 1 0 = .ok w1 ∧
      w1.cars[0]? = some (some ⟨some 0⟩) ∧ w1.cars[1]? = some (some ⟨some 0⟩) ∧
      w1.heap[0]?.map Cell.use_count = some 2) := by
  have key := car_move_shares (car.ctor (car.ctor (World.empty : World Unit)).1).1 0 0
    ⟨Obj.under_the_hood (), 1, 0⟩ rfl rfl
  obtain ⟨h, k⟩ := key
  exact ⟨h, k 1 1 ⟨Obj.under_the_hood (), 1, 0⟩ rfl rfl⟩

/-- C4 as stated fails: after `car c; car d(std::move(c));` the object of `c`
has two owners, and the move assignment `d = std::move(c)` leaves it with two
owners, not three. -/
theorem car_move_assign_count_not_raised :
    ∃ w0 w1 : World Unit,
      car.run World.empty [CarOp.ctor, CarOp.move_ctor 0] = .ok w0 ∧
      w0.cars[0]? = some (some ⟨some 0⟩) ∧
      w0.heap[0]?.map Cell.use_count = some 2 ∧
      car.move_assign w0 1 0 = .ok w1 ∧
      w1.cars[0]? = some (some ⟨some 0⟩) ∧
      w1.cars[1]? = some (some ⟨some 0⟩) ∧
      w1.heap[0]?.map Cell.use_count = some 2 ∧
      w1.heap[0]?.map Cell.use_count ≠ some (2 + 1) :=
  ⟨_, _, rfl, rfl, rfl, rfl, rfl, rfl, rfl, by decide⟩

/-! ## Lifetime of the hidden object of `car` -/

/-- C7: run any sequence of `car` operations from the start of the program.
Unless the sequence names a `car` that is not live, it runs to completion, and
in the state reached the free store holds exactly one `under_the_hood` for each
default construction, copy construction and copy assignment of the sequence;
the owner count of each is the number of live `car` objects pointing at it; an
object some live `car` points at has never been released, and an object no live
`car` points at has been released exactly once. -/
theorem car_hidden_object_lifetime [Inhabited σ] (ops : List CarOp) :
    car.run (World.empty : World σ) ops = .error .no_such_car ∨
    ∃ w : World σ, car.run World.empty ops = .ok w ∧
      w.heap.length = (ops.filter CarOp.creates).length ∧
      ∀ (a : Nat) (cell : Cell σ), w.heap[a]? = some cell →
        (∃ s, cell.obj = Obj.under_the_hood s) ∧
        cell.use_count = w.owners a ∧
        ((∃ i : Nat, w.cars[i]? = some (some ⟨some a⟩)) → cell.deleted = 0) ∧
        ((¬ ∃ i : Nat, w.cars[i]? = some (some ⟨some a⟩)) → cell.deleted = 1) := by
  rcases car_run_inv ops (World.empty : World σ) car_inv_empty with h | ⟨w, h1, h2, h3⟩
  · exact Or.inl h
  · right
    refine ⟨w, h1, by simpa [World.empty] using h3, ?_⟩
    intro a cell ha
    obtain ⟨hs, huc, hdel⟩ := h2.2 a cell ha
    refine ⟨hs, huc, ?_, ?_⟩
    · rintro ⟨i, hi⟩
      have hpos : 1 ≤ w.owners a := count_pos_of_getElem? w.cars i _ hi
      rw [hdel, if_neg (by omega)]
    · intro hno
      have hz : w.owners a = 0 := by
        apply count_zero_of
        intro i hi
        exact hno ⟨i, hi⟩
      rw [hdel, if_pos hz]

/-- C7 on a concrete sequence: `car c0; car c1(c0); car c2(std::move(c0));
c1 = std::move(c0);`, then `c0` and `c2` are destroyed and `c1 = c1` is copy
assigned. Three objects were created; the first two have no owner left and
were released once each, the third is owned by `c1` and has not been released. -/
theorem car_hidden_object_lifetime_witness :
    ∃ w : World Unit,
      car.run World.empty [CarOp.ctor, CarOp.copy_ctor 0, CarOp.move_ctor 0,
        CarOp.move_assign 1 0, CarOp.dtor 0, CarOp.dtor 2, CarOp.copy_assign 1 1] = .ok w ∧
      w.heap = [⟨Obj.under_the_hood (), 0, 1⟩, ⟨Obj.under_the_hood (), 0, 1⟩,
        ⟨Obj.under_the_hood (), 1, 0⟩] ∧
      w.cars = [none, some ⟨some 2⟩, none] ∧
      ∀ (a : Nat) (cell : Cell Unit), w.heap[a]? = some cell →
        (∃ s, cell.obj = Obj.under_the_hood s) ∧
        cell.use_count = w.owners a ∧
        ((∃ i : Nat, w.cars[i]? = some (some ⟨some a⟩)) → cell.deleted = 0) ∧
        ((¬ ∃ i : Nat, w.cars[i]? = some (some ⟨some a⟩)) → cell.deleted = 1) := by
  rcases @car_hidden_object_lifetime Unit _ [CarOp.ctor, CarOp.copy_ctor 0,
    CarOp.move_ctor 0, CarOp.move_assign 1 0, CarOp.dtor 0, CarOp.dtor 2,
    CarOp.copy_assign 1 1] with h | ⟨w, h1, _, h3⟩
  · cases h
  · have e : car.run (World.empty : World Unit) [CarOp.ctor, CarOp.copy_ctor 0,
        CarOp.move_ctor 0, CarOp.move_assign 1 0, CarOp.dtor 0, CarOp.dtor 2,
        CarOp.copy_assign 1 1] =
        .ok ⟨["car", "~car", "~car"],
          [⟨Obj.under_the_hood (), 0, 1⟩, ⟨Obj.under_the_hood (), 0, 1⟩,
            ⟨Obj.under_the_hood (), 1, 0⟩], [], [none, some ⟨some 2⟩, none]⟩ := rfl
    rw [e] at h1
    cases h1
    exact ⟨_, e, rfl, rfl, h3⟩

/-- C10: run any sequence of `car` operations from the start of the program.
The run never stops at a null, dangling or ill-typed `pImpl`, and in every state it
reaches the `pImpl` of every live `car` is non-null and points at an
`under_the_hood` that has not been released, so that every operation naming
live `car` objects only, the copy constructor and the copy assignment with
their `*c.pImpl` in particular, runs to completion. -/
theorem car_pImpl_never_null [Inhabited σ] (ops : List CarOp) :
    car.run (World.empty : World σ) ops ≠ .error .null_deref ∧
    car.run (World.empty : World σ) ops ≠ .error .dangling ∧
    car.run (World.empty : World σ) ops ≠ .error .wrong_type ∧
    ∀ w : World σ, car.run World.empty ops = .ok w →
      (∀ (i : Nat) (c : car), w.cars[i]? = some (some c) →
        ∃ a cell s, c.pImpl = some a ∧ w.heap[a]? = some cell ∧ cell.deleted = 0 ∧
          cell.obj = Obj.under_the_hood s) ∧
      (∀ c : Nat, w.live c = true → ∃ r, car.copy_ctor w c = .ok r) ∧
      (∀ d c : Nat, w.live d = true → w.live c = true →
        ∃ w1, car.copy_assign w d c = .ok w1) ∧
      (∀ op : CarOp, op.valid w = true → ∃ w1, car.step w op = .ok w1) := by
  rcases car_run_inv ops (World.empty : World σ) car_inv_empty with h | ⟨w, h1, h2, _⟩
  · rw [h]
    refine ⟨by simp, by simp, by simp, ?_⟩
    intro w hw
    cases hw
  · rw [h1]
    refine ⟨by simp, by simp, by simp, ?_⟩
    intro w1 hw1
    cases hw1
    refine ⟨?_, ?_, ?_, ?_⟩
    · intro i c hi
      obtain ⟨a, cell, s, rfl, hcell, hs, _, hdel⟩ := car_inv_live w h2 i c hi
      exact ⟨a, cell, s, rfl, hcell, hdel, hs⟩
    · intro c hc
      obtain ⟨w1, h0, _⟩ := copy_ctor_inv w h2 c hc
      exact ⟨_, h0⟩
    · intro d c hd hc
      obtain ⟨w1, h0, _⟩ := copy_assign_inv w h2 d c hd hc
      exact ⟨_, h0⟩
    · intro op hv
      obtain ⟨w1, h0, _⟩ := car_step_inv w h2 op hv
      exact ⟨_, h0⟩

/-- C10 on a concrete sequence: after `car c0; car c1(std::move(c0));` the
source `c0` of the declared move still holds the non-null pointer to cell `0`,
and copying from it runs to completion. -/
theorem car_pImpl_never_null_witness :
    ∃ w : World Unit, car.run World.empty [CarOp.ctor, CarOp.move_ctor 0] = .ok w ∧
      w.cars[0]? = some (some ⟨some 0⟩) ∧
      (∃ a cell s, (car.mk (some 0)).pImpl = some a ∧ w.heap[a]? = some cell ∧
        cell.deleted = 0 ∧ cell.obj = Obj.under_the_hood s) ∧
      (∃ r, car.copy_ctor w 0 = .ok r) ∧
      (∃ w1, car.copy_assign w 0 0 = .ok w1) := by
  have e : car.run (World.empty : World Unit) [CarOp.ctor, CarOp.move_ctor 0] =
      .ok ⟨["car"], [⟨Obj.under_the_hood (), 2, 0⟩], [],
        [some ⟨some 0⟩, some ⟨some 0⟩]⟩ := rfl
  obtain ⟨h1, h2, h3, _⟩ :=
    (@car_pImpl_never_null Unit _ [CarOp.ctor, CarOp.move_ctor 0]).2.2.2 _ e
  exact ⟨_, e, rfl, h1 0 _ rfl, h2 0 rfl, h3 0 0 rfl rfl⟩

/-! ## The lines written by each operation -/

theorem free_out (w : World σ) (p : Nat) : (w.free p).out = w.out := by
  unfold World.free
  split <;> rfl

/-- C8, as the code behaves: the lines one invocation appends to standard
output are fixed for each operation. The constructors and destructors of
`widget`, `MyClassImp`, `MyClass`, `foo`, `bar` and the default constructor and
the destructor of `car`, `MyClass::Public_Method` and the two
`do_internal_work` members append their own line, preceded or followed by the
lines of the operations they invoke; `MyClassImp::Private_Method`, the move
operations of `foo`, `bar::impl_deleter`, and the copy constructor, copy
assignment, declared move constructor and declared move assignment of `car`
append nothing. -/
theorem lines_per_operation [Inhabited σ] (w : World σ) :
    (widget.ctor w).1.out = w.out ++ ["widget"] ∧
    (∀ x, (widget.dtor w x).out = w.out ++ ["~widget"]) ∧
    (MyClassImp.ctor w).1.out = w.out ++ ["MyClassImp"] ∧
    (MyClassImp.dtor w).out = w.out ++ ["~MyClassImp"] ∧
    (MyClass.ctor w).1.out = w.out ++ ["MyClassImp", "MyClass"] ∧
    (∀ p, (MyClass.dtor w ⟨some p⟩).out = w.out ++ ["~MyClass", "~MyClassImp"]) ∧
    (∃ r, foo.ctor w = .ok r ∧ r.1.out = w.out ++ ["foo", "foo::do_internal_work()"]) ∧
    (∀ x, (foo.dtor w x).out = w.out ++ ["~foo"]) ∧
    (∃ r, bar.ctor w = .ok r ∧ r.1.out = w.out ++ ["bar", "bar::do_internal_work()"]) ∧
    (∀ x, (bar.dtor w x).out = w.out ++ ["~bar"]) ∧
    (car.ctor w).1.out = w.out ++ ["car"] ∧
    (∀ x, (foo.move_ctor w x).1.out = w.out) ∧
    (∀ x y, (foo.move_assign w x y).1.out = w.out) ∧
    (∀ p, (bar.impl_deleter w p).out = w.out) ∧
    (∀ (p : Nat) (c : Cell σ), w.heap[p]? = some c → c.deleted = 0 →
      (∀ v, c.obj = Obj.MyClassImp v →
        (∃ r, MyClass.Public_Method w ⟨some p⟩ = .ok r ∧
          r.1.out = w.out ++ ["MyClass::Public_Method()"]) ∧
        MyClassImp.Private_Method w (some p) = .ok w) ∧
      (∀ v, c.obj = Obj.foo_impl v →
        ∃ r, foo.impl.do_internal_work w (some p) = .ok r ∧
          r.out = w.out ++ ["foo::do_internal_work()"]) ∧
      (∀ v, c.obj = Obj.bar_impl v →
        ∃ r, bar.impl.do_internal_work w (some p) = .ok r ∧
          r.out = w.out ++ ["bar::do_internal_work()"])) ∧
    (car_inv w → ∀ d c : Nat, w.live d = true → w.live c = true →
      (∃ r, car.dtor w c = .ok r ∧ r.out = w.out ++ ["~car"]) ∧
      (∃ r, car.copy_ctor w c = .ok r ∧ r.1.out = w.out) ∧
      (∃ r, car.copy_assign w d c = .ok r ∧ r.out = w.out) ∧
      (∃ r, car.move_ctor w c = .ok r ∧ r.1.out = w.out) ∧
      (∃ r, car.move_assign w d c = .ok r ∧ r.out = w.out)) := by
  refine ⟨rfl, ?_, rfl, rfl, by simp [MyClass_ctor_eq], ?_, ?_, ?_, ?_, ?_, rfl, ?_, ?_, ?_,
    ?_, ?_⟩
  · intro x
    cases x with
    | mk p =>
      cases p with
      | none => rfl
      | some a => simp [widget.dtor, unique_ptr_dtor, widget.impl.delete, free_out, World.print]
  · intro p
    simp [MyClass.dtor, unique_ptr_dtor, MyClassImp.delete, MyClassImp.dtor, free_out,
      World.print]
  · exact ⟨_, foo_ctor_eq w, by simp⟩
  · intro x
    cases x with
    | mk p =>
      cases p with
      | none => rfl
      | some a => simp [foo.dtor, unique_ptr_dtor, foo.impl.delete, free_out, World.print]
  · exact ⟨_, bar_ctor_eq w, by simp⟩
  · intro x
    cases x with
    | mk p =>
      cases p with
      | none => rfl
      | some a => simp [bar.dtor, unique_ptr_dtor, bar.impl_deleter, free_out, World.print]
  · intro x
    rfl
  · intro x y
    cases x with
    | mk p =>
      cases p with
      | none => rfl
      | some a => simp [foo.move_assign, unique_ptr_dtor, foo.impl.delete, free_out]
  · intro p
    simp [bar.impl_deleter, free_out]
  · intro p c h hd
    refine ⟨?_, ?_, ?_⟩
    · intro v ho
      refine ⟨⟨_, Public_Method_eq w p c v h hd ho, rfl⟩, ?_⟩
      simp only [MyClassImp.Private_Method, deref_live w p c h hd, ho]
    · intro v ho
      have h1 : (w.print "foo::do_internal_work()").heap[p]? = some c := h
      simp only [foo.impl.do_internal_work, deref_live _ p c h1 hd, ho]
      exact ⟨_, rfl, rfl⟩
    · intro v ho
      have h1 : (w.print "bar::do_internal_work()").heap[p]? = some c := h
      simp only [bar.impl.do_internal_work, deref_live _ p c h1 hd, ho]
      exact ⟨_, rfl, rfl⟩
  · intro hw d c hd hc
    obtain ⟨r1, e1, _, o1, _⟩ := dtor_inv w hw c hc
    obtain ⟨r2, e2, _, o2, _⟩ := copy_ctor_inv w hw c hc
    obtain ⟨r3, e3, _, o3, _⟩ := copy_assign_inv w hw d c hd hc
    obtain ⟨r4, e4, _, o4, _⟩ := move_ctor_inv w hw c hc
    obtain ⟨r5, e5, _, o5, _⟩ := move_assign_inv w hw d c hd hc
    exact ⟨⟨_, e1, o1⟩, ⟨_, e2, o2⟩, ⟨_, e3, o3⟩, ⟨_, e4, o4⟩, ⟨_, e5, o5⟩⟩

/-- C8 at a concrete state: after `car c;` the copy constructor and the declared
move assignment of `car` run and leave the output as it was, and the
destructor appends `~car`. -/
theorem lines_per_operation_witness :
    (∃ r, car.copy_ctor (car.ctor (World.empty : World Unit)).1 0 = .ok r ∧
      r.1.out = ["car"]) ∧
    (∃ r, car.move_assign (car.ctor (World.empty : World Unit)).1 0 0 = .ok r ∧
      r.out = ["car"]) ∧
    (∃ r, car.dtor (car.ctor (World.empty : World Unit)).1 0 = .ok r ∧
      r.out = ["car", "~car"]) := by
  have key := (lines_per_operation (car.ctor (World.empty : World Unit)).1).2.2.2.2.2.2.2.2.2.2.2.2.2.2.2
    (ctor_inv World.empty car_inv_empty).1 0 0 rfl rfl
  exact ⟨key.2.1, key.2.2.2.2, key.1⟩

/-- C8 as stated fails: after `car c;` the copy constructor `car d(c)` runs and
appends no line to standard output. -/
theorem car_copy_ctor_prints_nothing :
    ∃ r : World Unit × Nat,
      car.copy_ctor (car.ctor (World.empty : World Unit)).1 0 = .ok r ∧
      r.1.out = (car.ctor (World.empty : World Unit)).1.out ∧
      ¬ ∃ line : String, r.1.out = (car.ctor (World.empty : World Unit)).1.out ++ [line] := by
  refine ⟨_, rfl, rfl, ?_⟩
  rintro ⟨line, hl⟩
  have h2 : (["car"] : List String) = ["car"] ++ [line] := hl
  simp at h2

end Pimpl
